import Mathlib

/-
Verification of the room/peer registry and signaling relay implemented in
src/api/index.ts. The mutable JavaScript state (the `rooms` object, each
per-connection `currentRoom` closure variable, and the transport layer's
connectedness and broadcast-group membership) is embedded as an explicit
state type, and each socket event handler as a pure function from state and
event arguments to a new state together with the list of emitted messages.
JavaScript objects used as string-keyed dictionaries are embedded as
association lists whose update and delete operations mirror object index
assignment and the delete operator.
-/

namespace Auvi

/-- A peer record as stored in a room: `{ username, isVideoEnabled }`. -/
structure Peer where
  username : String
  isVideoEnabled : Bool
deriving DecidableEq

/-- Member map of one room: connectionId to peer record, as in `rooms[room]`. -/
abbrev RoomPeers := List (String × Peer)

/-- The registry: roomId to member map, as in the global `rooms` object. -/
abbrev Rooms := List (String × RoomPeers)

/-- Lookup in a string-keyed dictionary, as in `obj[k]` returning undefined when absent. -/
def mapGet {α : Type} : List (String × α) → String → Option α
  | [], _ => none
  | (k1, v1) :: rest, k => if k1 = k then some v1 else mapGet rest k

/-- Update in a string-keyed dictionary, as in `obj[k] = v`: overwrite the existing
binding in place, or append a fresh binding. -/
def mapSet {α : Type} : List (String × α) → String → α → List (String × α)
  | [], k, v => [(k, v)]
  | (k1, v1) :: rest, k, v => if k1 = k then (k, v) :: rest else (k1, v1) :: mapSet rest k v

/-- Removal from a string-keyed dictionary, as in `delete obj[k]`. -/
def mapDel {α : Type} : List (String × α) → String → List (String × α)
  | [], _ => []
  | (k1, v1) :: rest, k => if k1 = k then mapDel rest k else (k1, v1) :: mapDel rest k

/-- Key list of a dictionary, as in `Object.keys(obj)`. -/
def keysOf {α : Type} : List (String × α) → List String
  | [] => []
  | (k1, _) :: rest => k1 :: keysOf rest

/-- Membership test used by the signal and toggle guards:
`rooms[r]?.[c]` is truthy exactly when room `r` exists and has an entry for `c`. -/
def isMember (rooms : Rooms) (r c : String) : Bool :=
  (mapGet ((mapGet rooms r).getD []) c).isSome

/-- Messages emitted by the handlers, one constructor per outbound event name. -/
inductive Msg where
  | introduction (peers : RoomPeers)
  | newUserConnected (id username : String)
  | signal (tid frm : String) (data : String)
  | userToggledVideo (id : String) (isEnabled : Bool)
  | userDisconnected (id : String)
deriving DecidableEq

/-- Addressing of an emission: `io.to(id)` / `socket.emit` target one connection;
`socket.to(room)` targets a broadcast group excluding the sender. -/
inductive Target where
  | toConn (id : String)
  | roomExcept (group sender : String)
deriving DecidableEq

/-- One emitted message together with its addressing. -/
structure Emit where
  tgt : Target
  msg : Msg
deriving DecidableEq

/-- Global state: the registry, each connection's `currentRoom` closure variable,
transport-level connectedness, and broadcast-group membership (`joined g c` means
connection `c` has joined group `g` and not yet disconnected). -/
structure SState where
  rooms : Rooms
  currentRoom : String → Option String
  connected : String → Bool
  joined : String → String → Bool

/-- State at server start: empty registry, no connection registered anywhere. -/
def initState : SState :=
  { rooms := []
    currentRoom := fun _ => none
    connected := fun _ => true
    joined := fun _ _ => false }

/-- Room resolution in the register handler: `roomId || "default"`, where both an
absent argument and the empty string are falsy. -/
def resolveRoom : Option String → String
  | none => "default"
  | some r => if r = "" then "default" else r

/-- The register handler: join the group, create the room if absent, insert or
overwrite the peer entry with video disabled, emit the introduction snapshot to
the caller and the newUserConnected notification to the rest of the room. -/
def registerHandler (st : SState) (cid username : String) (roomId : Option String) :
    SState × List Emit :=
  let room := resolveRoom roomId
  let newMap := mapSet ((mapGet st.rooms room).getD []) cid ⟨username, false⟩
  ({ rooms := mapSet st.rooms room newMap
     currentRoom := fun c => if c = cid then some room else st.currentRoom c
     connected := st.connected
     joined := fun g c => ((g == room) && (c == cid)) || st.joined g c },
   [⟨Target.toConn cid, Msg.introduction newMap⟩,
    ⟨Target.roomExcept room cid, Msg.newUserConnected cid username⟩])

/-- The signal handler: when the caller has a truthy current room containing the
target id, forward the triple unchanged via `io.to(to)`; otherwise only log. -/
def signalHandler (st : SState) (cid tid frm : String) (data : String) :
    SState × List Emit :=
  match st.currentRoom cid with
  | none => (st, [])
  | some r =>
    if r = "" then (st, [])
    else if isMember st.rooms r tid then
      (st, [⟨Target.toConn tid, Msg.signal tid frm data⟩])
    else (st, [])

/-- The toggle-video handler: when the caller has a truthy current room in which
it is still a member, mutate its isVideoEnabled field in place and notify the
rest of the room; otherwise do nothing. -/
def toggleHandler (st : SState) (cid : String) (isEnabled : Bool) :
    SState × List Emit :=
  match st.currentRoom cid with
  | none => (st, [])
  | some r =>
    if r = "" then (st, [])
    else
      match mapGet ((mapGet st.rooms r).getD []) cid with
      | none => (st, [])
      | some p =>
        let newMap := mapSet ((mapGet st.rooms r).getD []) cid ⟨p.username, isEnabled⟩
        ({ st with rooms := mapSet st.rooms r newMap },
         [⟨Target.roomExcept r cid, Msg.userToggledVideo cid isEnabled⟩])

/-- The disconnect handler. The transport marks the socket disconnected and
removes it from every broadcast group; the handler body then removes the peer
entry from its current room when that room exists, deletes the room if it became
empty, and emits the userDisconnected notification to the group. -/
def disconnectHandler (st : SState) (cid : String) : SState × List Emit :=
  let st1 : SState :=
    { st with
      connected := fun c => (!(c == cid)) && st.connected c
      joined := fun g c => (!(c == cid)) && st.joined g c }
  match st.currentRoom cid with
  | none => (st1, [])
  | some r =>
    if r = "" then (st1, [])
    else
      match mapGet st.rooms r with
      | none => (st1, [])
      | some m =>
        let m1 := mapDel m cid
        ({ st1 with rooms := if m1 = [] then mapDel st.rooms r else mapSet st.rooms r m1 },
         [⟨Target.roomExcept r cid, Msg.userDisconnected cid⟩])

/-- Inbound events, each tagged with the connection it originates from. -/
inductive Ev where
  | register (cid username : String) (roomId : Option String)
  | signal (cid tid frm : String) (data : String)
  | toggleVideo (cid : String) (isEnabled : Bool)
  | disconnect (cid : String)
deriving DecidableEq

/-- One transport delivery step: events reach a handler only while the
originating connection is still connected. -/
def step (st : SState) : Ev → SState × List Emit
  | Ev.register cid u rid => if st.connected cid then registerHandler st cid u rid else (st, [])
  | Ev.signal cid tid frm d => if st.connected cid then signalHandler st cid tid frm d else (st, [])
  | Ev.toggleVideo cid b => if st.connected cid then toggleHandler st cid b else (st, [])
  | Ev.disconnect cid => if st.connected cid then disconnectHandler st cid else (st, [])

/-- Run a sequence of events from a given state. -/
def runFrom (st : SState) : List Ev → SState
  | [] => st
  | ev :: rest => runFrom (step st ev).1 rest

/-- Run a sequence of events from server start. -/
def run (evs : List Ev) : SState := runFrom initState evs

/-- Delivery of one emission to a connection, evaluated at the post-state: a
message reaches `c` when `c` is still connected and is the addressed connection,
or is a group member other than the excluded sender. -/
def delivers (st : SState) (e : Emit) (c : String) : Bool :=
  st.connected c &&
    (match e.tgt with
     | Target.toConn i => c == i
     | Target.roomExcept g s => st.joined g c && !(c == s))

/-- A message `m` out of the emission list `es` is delivered to connection `c`. -/
def DeliveredTo (st : SState) (es : List Emit) (m : Msg) (c : String) : Prop :=
  ∃ e ∈ es, e.msg = m ∧ delivers st e c = true

instance (st : SState) (es : List Emit) (m : Msg) (c : String) :
    Decidable (DeliveredTo st es m c) := by
  unfold DeliveredTo; infer_instance

/-! Lemmas about the dictionary primitives. -/

theorem mapGet_set_self {α : Type} (m : List (String × α)) (k : String) (v : α) :
    mapGet (mapSet m k v) k = some v := by
  induction m with
  | nil => simp [mapSet, mapGet]
  | cons p rest ih =>
    obtain ⟨k1, v1⟩ := p
    by_cases h : k1 = k
    · simp [mapSet, h, mapGet]
    · simp [mapSet, h, mapGet, ih]

theorem mapGet_set_ne {α : Type} (m : List (String × α)) (k k2 : String) (v : α)
    (h : k2 ≠ k) : mapGet (mapSet m k v) k2 = mapGet m k2 := by
  have hk : ¬ k = k2 := fun h2 => h h2.symm
  induction m with
  | nil => simp [mapSet, mapGet, hk]
  | cons p rest ih =>
    obtain ⟨k1, v1⟩ := p
    by_cases h1 : k1 = k
    · subst h1
      simp [mapSet, mapGet, hk]
    · by_cases h2 : k1 = k2
      · subst h2
        simp [mapSet, h1, mapGet]
      · simp [mapSet, h1, mapGet, h2, ih]

theorem mapGet_del_self {α : Type} (m : List (String × α)) (k : String) :
    mapGet (mapDel m k) k = none := by
  induction m with
  | nil => simp [mapDel, mapGet]
  | cons p rest ih =>
    obtain ⟨k1, v1⟩ := p
    by_cases h : k1 = k
    · simp [mapDel, h, ih]
    · simp [mapDel, h, mapGet, ih]

theorem mapGet_del_ne {α : Type} (m : List (String × α)) (k k2 : String)
    (h : k2 ≠ k) : mapGet (mapDel m k) k2 = mapGet m k2 := by
  induction m with
  | nil => simp [mapDel]
  | cons p rest ih =>
    obtain ⟨k1, v1⟩ := p
    by_cases h1 : k1 = k
    · subst h1
      have : ¬ k1 = k2 := fun h2 => h (h2.symm)
      simp [mapDel, mapGet, this, ih]
    · by_cases h2 : k1 = k2
      · subst h2
        simp [mapDel, h1, mapGet]
      · simp [mapDel, h1, mapGet, h2, ih]

theorem mapSet_ne_nil {α : Type} (m : List (String × α)) (k : String) (v : α) :
    mapSet m k v ≠ [] := by
  cases m with
  | nil => simp [mapSet]
  | cons p rest =>
    obtain ⟨k1, v1⟩ := p
    by_cases h : k1 = k <;> simp [mapSet, h]

theorem keysOf_set {α : Type} (m : List (String × α)) (k : String) (v : α) :
    keysOf (mapSet m k v) =
      if k ∈ keysOf m then keysOf m else keysOf m ++ [k] := by
  induction m with
  | nil => simp [mapSet, keysOf]
  | cons p rest ih =>
    obtain ⟨k1, v1⟩ := p
    by_cases h : k1 = k
    · subst h
      simp [mapSet, keysOf]
    · have hne : ¬ k = k1 := fun h2 => h h2.symm
      by_cases hmem : k ∈ keysOf rest
      · simp [mapSet, h, keysOf, hne, hmem, ih]
      · simp [mapSet, h, keysOf, hne, hmem, ih]

theorem keysOf_del {α : Type} (m : List (String × α)) (k : String) :
    keysOf (mapDel m k) = (keysOf m).filter (fun x => decide (x ≠ k)) := by
  induction m with
  | nil => simp [mapDel, keysOf]
  | cons p rest ih =>
    obtain ⟨k1, v1⟩ := p
    by_cases h : k1 = k
    · simp [mapDel, h, keysOf, List.filter, ih]
    · simp [mapDel, h, keysOf, List.filter, ih]

theorem mem_keysOf_iff {α : Type} (m : List (String × α)) (k : String) :
    k ∈ keysOf m ↔ (mapGet m k).isSome = true := by
  induction m with
  | nil => simp [keysOf, mapGet]
  | cons p rest ih =>
    obtain ⟨k1, v1⟩ := p
    by_cases h : k1 = k
    · simp [keysOf, mapGet, h]
    · have hne : ¬ k = k1 := fun h2 => h h2.symm
      simp [keysOf, mapGet, h, hne, ih]

theorem mapDel_eq_nil_keys {α : Type} (m : List (String × α)) (k : String)
    (h : mapDel m k = []) : ∀ p ∈ m, p.1 = k := by
  induction m with
  | nil => simp
  | cons q rest ih =>
    obtain ⟨k1, v1⟩ := q
    by_cases h1 : k1 = k
    · subst h1
      simp only [mapDel, if_pos rfl] at h
      intro p hp
      rcases List.mem_cons.mp hp with hp1 | hp1
      · rw [hp1]
      · exact ih h p hp1
    · simp [mapDel, h1] at h

theorem keysOf_length {α : Type} (m : List (String × α)) :
    (keysOf m).length = m.length := by
  induction m with
  | nil => simp [keysOf]
  | cons p rest ih =>
    obtain ⟨k1, v1⟩ := p
    simp [keysOf, ih]

/-! Basic facts about the handlers. -/

theorem resolveRoom_ne_empty (rid : Option String) : resolveRoom rid ≠ "" := by
  cases rid with
  | none => simp [resolveRoom]
  | some r =>
    by_cases h : r = "" <;> simp [resolveRoom, h]

theorem mapGet_none_of_keys {α : Type} (m : List (String × α)) (k c : String)
    (hk : ∀ p ∈ m, p.1 = k) (hne : c ≠ k) : mapGet m c = none := by
  induction m with
  | nil => simp [mapGet]
  | cons p rest ih =>
    obtain ⟨k1, v1⟩ := p
    have h1 : k1 = k := hk (k1, v1) (List.mem_cons_self _ _)
    subst h1
    have : ¬ k1 = c := fun h2 => hne h2.symm
    simp only [mapGet, if_neg this]
    exact ih (fun p hp => hk p (List.mem_cons_of_mem _ hp))

theorem signalHandler_fst (st : SState) (cid tid frm d : String) :
    (signalHandler st cid tid frm d).1 = st := by
  unfold signalHandler
  rcases st.currentRoom cid with _ | r
  · rfl
  · by_cases hr : r = ""
    · simp [hr]
    · by_cases hm : isMember st.rooms r tid = true <;> simp [hr, hm]

/-- Reachability invariant bundle: recorded rooms are truthy strings, the
registry holds no empty room, and for connected peers broadcast-group
membership coincides with registry membership, with the recorded current room
always joined. -/
structure RInv (st : SState) : Prop where
  cr_ne : ∀ c r, st.currentRoom c = some r → r ≠ ""
  no_empty : ∀ r m, mapGet st.rooms r = some m → m ≠ []
  join_mem : ∀ c, st.connected c = true → ∀ g, st.joined g c = isMember st.rooms g c
  cr_mem : ∀ c r, st.connected c = true → st.currentRoom c = some r → st.joined r c = true

theorem rinv_init : RInv initState := by
  constructor
  · intro c r h
    simp [initState] at h
  · intro r m h
    simp [initState, mapGet] at h
  · intro c _ g
    simp [initState, isMember, mapGet]
  · intro c r _ h
    simp [initState] at h

theorem rinv_register (st : SState) (cid u : String) (rid : Option String)
    (h : RInv st) : RInv (registerHandler st cid u rid).1 := by
  unfold registerHandler
  set room := resolveRoom rid with hroom
  set newMap := mapSet ((mapGet st.rooms room).getD []) cid ⟨u, false⟩ with hnm
  constructor
  · intro c r hcr
    by_cases hc : c = cid
    · simp only [hc, if_pos rfl] at hcr
      cases hcr
      exact resolveRoom_ne_empty rid
    · simp only [if_neg hc] at hcr
      exact h.cr_ne c r hcr
  · intro r m hm
    by_cases hr : r = room
    · subst hr
      rw [mapGet_set_self] at hm
      cases hm
      exact mapSet_ne_nil _ _ _
    · rw [mapGet_set_ne _ _ _ _ hr] at hm
      exact h.no_empty r m hm
  · intro c hc g
    simp only
    by_cases hg : g = room
    · subst hg
      by_cases hcc : c = cid
      · subst hcc
        simp only [beq_self_eq_true, Bool.and_self, Bool.true_or]
        have h1 : mapGet (mapSet st.rooms room newMap) room = some newMap := mapGet_set_self _ _ _
        simp only [isMember, h1, Option.getD_some, hnm, mapGet_set_self, Option.isSome_some]
      · have hbc : (c == cid) = false := by simp [hcc]
        simp only [hbc, Bool.and_false, Bool.false_or]
        have h1 : mapGet (mapSet st.rooms room newMap) room = some newMap := mapGet_set_self _ _ _
        have h2 : mapGet newMap c = mapGet ((mapGet st.rooms room).getD []) c := by
          rw [hnm]
          exact mapGet_set_ne _ _ _ _ hcc
        simp only [isMember, h1, Option.getD_some, h2]
        exact h.join_mem c hc room
    · have hbg : (g == room) = false := by simp [hg]
      simp only [hbg, Bool.false_and, Bool.false_or]
      have h1 : mapGet (mapSet st.rooms room newMap) g = mapGet st.rooms g :=
        mapGet_set_ne _ _ _ _ hg
      simp only [isMember, h1]
      exact h.join_mem c hc g
  · intro c r hc hcr
    simp only at hcr ⊢
    by_cases hcc : c = cid
    · subst hcc
      simp only [if_pos rfl] at hcr
      cases hcr
      simp
    · simp only [if_neg hcc] at hcr
      have := h.cr_mem c r hc hcr
      simp [this]

theorem rinv_toggle (st : SState) (cid : String) (b : Bool)
    (h : RInv st) : RInv (toggleHandler st cid b).1 := by
  unfold toggleHandler
  rcases hcr : st.currentRoom cid with _ | r
  · exact h
  · by_cases hr : r = ""
    · simp only [if_pos hr]
      exact h
    · simp only [if_neg hr]
      rcases hp : mapGet ((mapGet st.rooms r).getD []) cid with _ | p

      · exact h
      · simp only
        constructor
        · exact h.cr_ne
        · intro r0 m hm
          by_cases hr0 : r0 = r
          · subst hr0
            rw [mapGet_set_self] at hm
            cases hm
            exact mapSet_ne_nil _ _ _
          · rw [mapGet_set_ne _ _ _ _ hr0] at hm
            exact h.no_empty r0 m hm
        · intro c hc g
          by_cases hg : g = r
          · subst hg
            have h1 := mapGet_set_self st.rooms g
              (mapSet ((mapGet st.rooms g).getD []) cid ⟨p.username, b⟩)
            by_cases hcc : c = cid
            · subst hcc
              simp only [isMember, h1, Option.getD_some, mapGet_set_self, Option.isSome_some]
              have := h.join_mem c hc g
              simp only [isMember, hp, Option.isSome_some] at this
              exact this
            · have h2 := mapGet_set_ne ((mapGet st.rooms g).getD []) cid c
                (⟨p.username, b⟩ : Peer) hcc
              simp only [isMember, h1, Option.getD_some, h2]
              exact h.join_mem c hc g
          · have h1 := mapGet_set_ne st.rooms r g
              (mapSet ((mapGet st.rooms r).getD []) cid ⟨p.username, b⟩) hg
            simp only [isMember, h1]
            exact h.join_mem c hc g
        · exact h.cr_mem

theorem rinv_disconnect (st : SState) (cid : String)
    (h : RInv st) : RInv (disconnectHandler st cid).1 := by
  unfold disconnectHandler
  have hconn : ∀ c, ((!(c == cid)) && st.connected c) = true → c ≠ cid ∧ st.connected c = true := by
    intro c hc
    simp only [Bool.and_eq_true, Bool.not_eq_true', beq_eq_false_iff_ne] at hc
    exact hc
  rcases hcr : st.currentRoom cid with _ | r
  · constructor
    · exact h.cr_ne
    · exact h.no_empty
    · intro c hc g
      obtain ⟨hne, hc2⟩ := hconn c hc
      simp only [beq_eq_false_iff_ne.mpr hne, Bool.not_false, Bool.true_and]
      exact h.join_mem c hc2 g
    · intro c r0 hc hcr0
      obtain ⟨hne, hc2⟩ := hconn c hc
      simp only [beq_eq_false_iff_ne.mpr hne, Bool.not_false, Bool.true_and]
      exact h.cr_mem c r0 hc2 hcr0
  · by_cases hr : r = ""
    · simp only [if_pos hr]
      constructor
      · exact h.cr_ne
      · exact h.no_empty
      · intro c hc g
        obtain ⟨hne, hc2⟩ := hconn c hc
        simp only [beq_eq_false_iff_ne.mpr hne, Bool.not_false, Bool.true_and]
        exact h.join_mem c hc2 g
      · intro c r0 hc hcr0
        obtain ⟨hne, hc2⟩ := hconn c hc
        simp only [beq_eq_false_iff_ne.mpr hne, Bool.not_false, Bool.true_and]
        exact h.cr_mem c r0 hc2 hcr0
    · simp only [if_neg hr]
      rcases hm : mapGet st.rooms r with _ | m
      · constructor
        · exact h.cr_ne
        · exact h.no_empty
        · intro c hc g
          obtain ⟨hne, hc2⟩ := hconn c hc
          simp only [beq_eq_false_iff_ne.mpr hne, Bool.not_false, Bool.true_and]
          exact h.join_mem c hc2 g
        · intro c r0 hc hcr0
          obtain ⟨hne, hc2⟩ := hconn c hc
          simp only [beq_eq_false_iff_ne.mpr hne, Bool.not_false, Bool.true_and]
          exact h.cr_mem c r0 hc2 hcr0
      · simp only
        constructor
        · exact h.cr_ne
        · intro r0 m0 hm0
          by_cases hdel : mapDel m cid = []
          · simp only [if_pos hdel] at hm0
            by_cases hr0 : r0 = r
            · subst hr0
              rw [mapGet_del_self] at hm0
              cases hm0
            · rw [mapGet_del_ne _ _ _ hr0] at hm0
              exact h.no_empty r0 m0 hm0
          · simp only [if_neg hdel] at hm0
            by_cases hr0 : r0 = r
            · subst hr0
              rw [mapGet_set_self] at hm0
              cases hm0
              exact hdel
            · rw [mapGet_set_ne _ _ _ _ hr0] at hm0
              exact h.no_empty r0 m0 hm0
        · intro c hc g
          obtain ⟨hne, hc2⟩ := hconn c hc
          simp only [beq_eq_false_iff_ne.mpr hne, Bool.not_false, Bool.true_and]
          by_cases hg : g = r
          · subst hg
            by_cases hdel : mapDel m cid = []
            · simp only [if_pos hdel]
              have hkeys := mapDel_eq_nil_keys m cid hdel
              have : mapGet m c = none := mapGet_none_of_keys m cid c hkeys hne
              have hmem : isMember st.rooms g c = false := by
                simp [isMember, hm, this]
              rw [h.join_mem c hc2 g, hmem]
              simp [isMember, mapGet_del_self, mapGet]
            · simp only [if_neg hdel]
              have h1 : mapGet (mapSet st.rooms g (mapDel m cid)) g = some (mapDel m cid) :=
                mapGet_set_self _ _ _
              have h2 : mapGet (mapDel m cid) c = mapGet m c := mapGet_del_ne _ _ _ hne
              simp only [isMember, h1, Option.getD_some, h2]
              have := h.join_mem c hc2 g
              simp only [isMember, hm, Option.getD_some] at this
              exact this
          · by_cases hdel : mapDel m cid = []
            · simp only [if_pos hdel]
              have h1 : mapGet (mapDel st.rooms r) g = mapGet st.rooms g :=
                mapGet_del_ne _ _ _ hg
              simp only [isMember, h1]
              exact h.join_mem c hc2 g
            · simp only [if_neg hdel]
              have h1 : mapGet (mapSet st.rooms r (mapDel m cid)) g = mapGet st.rooms g :=
                mapGet_set_ne _ _ _ _ hg
              simp only [isMember, h1]
              exact h.join_mem c hc2 g
        · intro c r0 hc hcr0
          obtain ⟨hne, hc2⟩ := hconn c hc
          simp only [beq_eq_false_iff_ne.mpr hne, Bool.not_false, Bool.true_and]
          exact h.cr_mem c r0 hc2 hcr0

theorem rinv_step (st : SState) (ev : Ev) (h : RInv st) : RInv (step st ev).1 := by
  cases ev with
  | register cid u rid =>
    simp only [step]
    by_cases hc : st.connected cid = true
    · simp only [hc, if_pos]
      exact rinv_register st cid u rid h
    · simp only [Bool.not_eq_true] at hc
      simp only [hc]
      exact h
  | signal cid tid frm d =>
    simp only [step]
    by_cases hc : st.connected cid = true
    · simp only [hc, if_pos, signalHandler_fst]
      exact h
    · simp only [Bool.not_eq_true] at hc
      simp only [hc]
      exact h
  | toggleVideo cid b =>
    simp only [step]
    by_cases hc : st.connected cid = true
    · simp only [hc, if_pos]
      exact rinv_toggle st cid b h
    · simp only [Bool.not_eq_true] at hc
      simp only [hc]
      exact h
  | disconnect cid =>
    simp only [step]
    by_cases hc : st.connected cid = true
    · simp only [hc, if_pos]
      exact rinv_disconnect st cid h
    · simp only [Bool.not_eq_true] at hc
      simp only [hc]
      exact h

theorem rinv_runFrom (st : SState) (evs : List Ev) (h : RInv st) : RInv (runFrom st evs) := by
  induction evs generalizing st with
  | nil => exact h
  | cons ev rest ih =>
    exact ih (step st ev).1 (rinv_step st ev h)

theorem rinv_run (evs : List Ev) : RInv (run evs) :=
  rinv_runFrom initState evs rinv_init

theorem isMember_room_present (rooms : Rooms) (r c : String)
    (h : isMember rooms r c = true) : (mapGet rooms r).isSome = true := by
  cases hm : mapGet rooms r with
  | none => simp [isMember, hm, mapGet] at h
  | some m => simp

theorem step_register_connected (st : SState) (cid u : String) (rid : Option String)
    (hc : st.connected cid = true) :
    step st (Ev.register cid u rid) = registerHandler st cid u rid := by
  simp [step, hc]

theorem step_signal_connected (st : SState) (cid tid frm d : String)
    (hc : st.connected cid = true) :
    step st (Ev.signal cid tid frm d) = signalHandler st cid tid frm d := by
  simp [step, hc]

theorem step_toggle_connected (st : SState) (cid : String) (b : Bool)
    (hc : st.connected cid = true) :
    step st (Ev.toggleVideo cid b) = toggleHandler st cid b := by
  simp [step, hc]

theorem step_disconnect_connected (st : SState) (cid : String)
    (hc : st.connected cid = true) :
    step st (Ev.disconnect cid) = disconnectHandler st cid := by
  simp [step, hc]

theorem deliveredTo_nil (st : SState) (m : Msg) (c : String) :
    ¬ DeliveredTo st [] m c := by
  simp [DeliveredTo]

theorem deliveredTo_singleton (st : SState) (e : Emit) (m : Msg) (c : String) :
    DeliveredTo st [e] m c ↔ (e.msg = m ∧ delivers st e c = true) := by
  simp [DeliveredTo]

theorem deliveredTo_pair (st : SState) (e1 e2 : Emit) (m : Msg) (c : String) :
    DeliveredTo st [e1, e2] m c ↔
      ((e1.msg = m ∧ delivers st e1 c = true) ∨ (e2.msg = m ∧ delivers st e2 c = true)) := by
  simp [DeliveredTo]

theorem toggleHandler_hit (st : SState) (cid : String) (b : Bool) (r : String) (p : Peer)
    (hcr : st.currentRoom cid = some r) (hr : r ≠ "")
    (hp : mapGet ((mapGet st.rooms r).getD []) cid = some p) :
    toggleHandler st cid b =
      ({ st with rooms := mapSet st.rooms r (mapSet ((mapGet st.rooms r).getD []) cid ⟨p.username, b⟩) },
       [⟨Target.roomExcept r cid, Msg.userToggledVideo cid b⟩]) := by
  unfold toggleHandler
  rw [hcr]
  simp [hr, hp]

theorem disconnectHandler_hit (st : SState) (cid : String) (r : String) (m : RoomPeers)
    (hcr : st.currentRoom cid = some r) (hr : r ≠ "")
    (hm : mapGet st.rooms r = some m) :
    disconnectHandler st cid =
      ({ rooms := if mapDel m cid = [] then mapDel st.rooms r else mapSet st.rooms r (mapDel m cid)
         currentRoom := st.currentRoom
         connected := fun c => (!(c == cid)) && st.connected c
         joined := fun g c => (!(c == cid)) && st.joined g c },
       [⟨Target.roomExcept r cid, Msg.userDisconnected cid⟩]) := by
  unfold disconnectHandler
  rw [hcr]
  simp [hr, hm]

/-- Claim C10: at every reachable state, a still-connected peer whose recorded
current room is non-null finds that room in the registry with its own entry in
the member map; consequently the toggle-video guard and the disconnect branch
both fire for such a peer, emitting their respective notifications. -/
theorem claim_C10 (evs : List Ev) (c r : String) (b : Bool)
    (hc : (run evs).connected c = true)
    (hcr : (run evs).currentRoom c = some r) :
    (mapGet (run evs).rooms r).isSome = true ∧
    isMember (run evs).rooms r c = true ∧
    (step (run evs) (Ev.toggleVideo c b)).2 ≠ [] ∧
    (step (run evs) (Ev.disconnect c)).2 ≠ [] := by
  have h := rinv_run evs
  have hj : (run evs).joined r c = true := h.cr_mem c r hc hcr
  have hmem : isMember (run evs).rooms r c = true := by
    rw [← h.join_mem c hc r]
    exact hj
  have hroom : (mapGet (run evs).rooms r).isSome = true :=
    isMember_room_present _ _ _ hmem
  have hrne : r ≠ "" := h.cr_ne c r hcr
  refine ⟨hroom, hmem, ?_, ?_⟩
  · rw [step_toggle_connected _ _ _ hc]
    have hp : (mapGet ((mapGet (run evs).rooms r).getD []) c).isSome = true := hmem
    rcases Option.isSome_iff_exists.mp hp with ⟨p, hp2⟩
    rw [toggleHandler_hit (run evs) c b r p hcr hrne hp2]
    simp
  · rw [step_disconnect_connected _ _ hc]
    rcases Option.isSome_iff_exists.mp hroom with ⟨m, hm2⟩
    rw [disconnectHandler_hit (run evs) c r m hcr hrne hm2]
    simp

/-- Witness for C10 at a concrete reachable state. -/
theorem claim_C10_witness :
    (mapGet (run [Ev.register "A" "u" (some "a")]).rooms "a").isSome = true ∧
    isMember (run [Ev.register "A" "u" (some "a")]).rooms "a" "A" = true ∧
    (step (run [Ev.register "A" "u" (some "a")]) (Ev.toggleVideo "A" true)).2 ≠ [] ∧
    (step (run [Ev.register "A" "u" (some "a")]) (Ev.disconnect "A")).2 ≠ [] :=
  claim_C10 [Ev.register "A" "u" (some "a")] "A" "a" true (by decide) (by decide)

/-- Claim C4: no reachable registry state maps a roomId to an empty member map;
and when the sole member of a room disconnects, that roomId becomes absent from
the registry. -/
theorem claim_C4 :
    (∀ evs r m, mapGet (run evs).rooms r = some m → m ≠ []) ∧
    (∀ evs cid r p, (run evs).connected cid = true →
      (run evs).currentRoom cid = some r →
      mapGet (run evs).rooms r = some [(cid, p)] →
      mapGet (step (run evs) (Ev.disconnect cid)).1.rooms r = none) := by
  constructor
  · intro evs r m hm
    exact (rinv_run evs).no_empty r m hm
  · intro evs cid r p hc hcr hm
    have hrne : r ≠ "" := (rinv_run evs).cr_ne cid r hcr
    rw [step_disconnect_connected _ _ hc]
    rw [disconnectHandler_hit (run evs) cid r [(cid, p)] hcr hrne hm]
    have hdel : mapDel [(cid, p)] cid = [] := by simp [mapDel]
    simp only [hdel, if_pos rfl]
    exact mapGet_del_self _ _

/-- Witness for C4 at a concrete reachable state. -/
theorem claim_C4_witness :
    ([("A", Peer.mk "u" false)] : RoomPeers) ≠ [] ∧
    mapGet (step (run [Ev.register "A" "u" (some "a")]) (Ev.disconnect "A")).1.rooms "a" = none :=
  ⟨claim_C4.1 [Ev.register "A" "u" (some "a")] "a" [("A", Peer.mk "u" false)] (by decide),
   claim_C4.2 [Ev.register "A" "u" (some "a")] "A" "a" (Peer.mk "u" false)
     (by decide) (by decide) (by decide)⟩

/-- Claim C2: on register, the introduction message is sent to the registering
connection only, its payload is the member map of the resolved room taken after
the insertion of the registering peer, and that payload contains the peer's own
entry with isVideoEnabled false. -/
theorem claim_C2 (st : SState) (cid u : String) (rid : Option String)
    (hc : st.connected cid = true) :
    DeliveredTo (step st (Ev.register cid u rid)).1 (step st (Ev.register cid u rid)).2
      (Msg.introduction (mapSet ((mapGet st.rooms (resolveRoom rid)).getD []) cid ⟨u, false⟩)) cid ∧
    (∀ pl c, DeliveredTo (step st (Ev.register cid u rid)).1 (step st (Ev.register cid u rid)).2
      (Msg.introduction pl) c →
      c = cid ∧ pl = mapSet ((mapGet st.rooms (resolveRoom rid)).getD []) cid ⟨u, false⟩) ∧
    mapGet (step st (Ev.register cid u rid)).1.rooms (resolveRoom rid) =
      some (mapSet ((mapGet st.rooms (resolveRoom rid)).getD []) cid ⟨u, false⟩) ∧
    mapGet (mapSet ((mapGet st.rooms (resolveRoom rid)).getD []) cid ⟨u, false⟩) cid =
      some ⟨u, false⟩ := by
  rw [step_register_connected _ _ _ _ hc]
  unfold registerHandler
  refine ⟨?_, ?_, ?_, ?_⟩
  · rw [deliveredTo_pair]
    left
    refine ⟨rfl, ?_⟩
    simp [delivers, hc]
  · intro pl c hd
    rw [deliveredTo_pair] at hd
    rcases hd with ⟨hmsg, hdel⟩ | ⟨hmsg, _⟩
    · simp only [Msg.introduction.injEq] at hmsg
      simp only [delivers, Bool.and_eq_true, beq_iff_eq] at hdel
      exact ⟨hdel.2, hmsg.symm⟩
    · simp at hmsg
  · exact mapGet_set_self _ _ _
  · exact mapGet_set_self _ _ _

/-- Witness for C2 at a concrete state. -/
theorem claim_C2_witness :
    DeliveredTo (step initState (Ev.register "A" "u" (some "a"))).1
      (step initState (Ev.register "A" "u" (some "a"))).2
      (Msg.introduction (mapSet ((mapGet initState.rooms (resolveRoom (some "a"))).getD []) "A" ⟨"u", false⟩)) "A" ∧
    (∀ pl c, DeliveredTo (step initState (Ev.register "A" "u" (some "a"))).1
      (step initState (Ev.register "A" "u" (some "a"))).2
      (Msg.introduction pl) c →
      c = "A" ∧ pl = mapSet ((mapGet initState.rooms (resolveRoom (some "a"))).getD []) "A" ⟨"u", false⟩) ∧
    mapGet (step initState (Ev.register "A" "u" (some "a"))).1.rooms (resolveRoom (some "a")) =
      some (mapSet ((mapGet initState.rooms (resolveRoom (some "a"))).getD []) "A" ⟨"u", false⟩) ∧
    mapGet (mapSet ((mapGet initState.rooms (resolveRoom (some "a"))).getD []) "A" ⟨"u", false⟩) "A" =
      some ⟨"u", false⟩ :=
  claim_C2 initState "A" "u" (some "a") (by decide)

/-- Claim C8: a connection with no recorded current room gets pure no-ops from
signal, toggle-video and disconnect: signal and toggle return the state
untouched with no emission, and disconnect leaves the registry untouched and
emits nothing. -/
theorem claim_C8 (st : SState) (cid tid frm d : String) (b : Bool)
    (h : st.currentRoom cid = none) :
    step st (Ev.signal cid tid frm d) = (st, []) ∧
    step st (Ev.toggleVideo cid b) = (st, []) ∧
    (step st (Ev.disconnect cid)).1.rooms = st.rooms ∧
    (step st (Ev.disconnect cid)).2 = [] := by
  refine ⟨?_, ?_, ?_, ?_⟩
  · cases hc : st.connected cid with
    | false => simp [step, hc]
    | true =>
      simp only [step, hc, if_pos]
      unfold signalHandler
      rw [h]
  · cases hc : st.connected cid with
    | false => simp [step, hc]
    | true =>
      simp only [step, hc, if_pos]
      unfold toggleHandler
      rw [h]
  · cases hc : st.connected cid with
    | false => simp [step, hc]
    | true =>
      simp only [step, hc, if_pos]
      unfold disconnectHandler
      rw [h]
  · cases hc : st.connected cid with
    | false => simp [step, hc]
    | true =>
      simp only [step, hc, if_pos]
      unfold disconnectHandler
      rw [h]

/-- Witness for C8 at the start state. -/
theorem claim_C8_witness :
    step initState (Ev.signal "A" "B" "A" "d") = (initState, []) ∧
    step initState (Ev.toggleVideo "A" true) = (initState, []) ∧
    (step initState (Ev.disconnect "A")).1.rooms = initState.rooms ∧
    (step initState (Ev.disconnect "A")).2 = [] :=
  claim_C8 initState "A" "B" "A" "d" true rfl

/-- The signal-relay guard, read off the source:
`currentRoom && rooms[currentRoom]?.[to]`. -/
def sigOk (st : SState) (cid tid : String) : Bool :=
  match st.currentRoom cid with
  | none => false
  | some r => (!(r == "")) && isMember st.rooms r tid

/-- Event history leaving a ghost member: A registers in r1, re-registers into
r2, disconnects (removing it from r2 only), then B registers in r1. The entry
for A is still in room r1 although A is gone. -/
def ghostEvs : List Ev :=
  [Ev.register "A" "x" (some "r1"), Ev.register "A" "x" (some "r2"),
   Ev.disconnect "A", Ev.register "B" "y" (some "r1")]

/-- Counterexample to claim C1: at the ghost state, the guard holds (B has a
current room whose member map contains A), yet the relayed signal is delivered
to nobody, because A has disconnected; so delivery is not equivalent to the
guard alone. -/
theorem claim_C1_counterexample :
    ¬ (∀ c, DeliveredTo (step (run ghostEvs) (Ev.signal "B" "A" "B" "d")).1
        (step (run ghostEvs) (Ev.signal "B" "A" "B" "d")).2 (Msg.signal "A" "B" "d") c ↔
        (sigOk (run ghostEvs) "B" "A" = true ∧ c = "A")) := by
  intro hcl
  have h1 := (hcl "A").mpr ⟨by decide, rfl⟩
  exact absurd h1 (by decide)

/-- Claim C1 as amended: a signal message carrying the unchanged triple is
delivered to the target connection only, if and only if the caller has a
recorded current room, the target is a member of that room, and the target
connection is itself still connected; otherwise nothing is emitted and no
error is returned to the caller. -/
theorem claim_C1_amended (st : SState) (cid tid frm d : String)
    (hc : st.connected cid = true) :
    (∀ c, DeliveredTo (step st (Ev.signal cid tid frm d)).1
        (step st (Ev.signal cid tid frm d)).2 (Msg.signal tid frm d) c ↔
        (sigOk st cid tid = true ∧ st.connected tid = true ∧ c = tid)) ∧
    (sigOk st cid tid = false → (step st (Ev.signal cid tid frm d)).2 = []) := by
  rw [step_signal_connected st cid tid frm d hc]
  rcases hcr : st.currentRoom cid with _ | r
  · have heq : signalHandler st cid tid frm d = (st, []) := by
      unfold signalHandler
      rw [hcr]
    rw [heq]
    constructor
    · intro c
      simp [DeliveredTo, sigOk, hcr]
    · intro _
      rfl
  · by_cases hr : r = ""
    · have heq : signalHandler st cid tid frm d = (st, []) := by
        unfold signalHandler
        rw [hcr]
        simp [hr]
      rw [heq]
      constructor
      · intro c
        simp [DeliveredTo, sigOk, hcr, hr]
      · intro _
        rfl
    · by_cases hmem : isMember st.rooms r tid = true
      · have heq : signalHandler st cid tid frm d =
            (st, [⟨Target.toConn tid, Msg.signal tid frm d⟩]) := by
          unfold signalHandler
          rw [hcr]
          simp [hr, hmem]
        rw [heq]
        constructor
        · intro c
          rw [deliveredTo_singleton]
          constructor
          · rintro ⟨-, hdel⟩
            simp only [delivers, Bool.and_eq_true, beq_iff_eq] at hdel
            obtain ⟨h1, h2⟩ := hdel
            subst h2
            refine ⟨?_, h1, rfl⟩
            simp [sigOk, hcr, hr, hmem]
          · rintro ⟨-, h1, h2⟩
            subst h2
            refine ⟨rfl, ?_⟩
            simp [delivers, h1]
        · intro hfalse
          simp [sigOk, hcr, hr, hmem] at hfalse
      · have heq : signalHandler st cid tid frm d = (st, []) := by
          unfold signalHandler
          rw [hcr]
          simp [hr, hmem]
        rw [heq]
        constructor
        · intro c
          simp [DeliveredTo, sigOk, hcr, hr, hmem]
        · intro _
          rfl

/-- Witness for the amended C1 at a concrete reachable state. -/
theorem claim_C1_amended_witness :
    (∀ c, DeliveredTo
        (step (run [Ev.register "A" "u" (some "a"), Ev.register "B" "v" (some "a")]) (Ev.signal "A" "B" "A" "d")).1
        (step (run [Ev.register "A" "u" (some "a"), Ev.register "B" "v" (some "a")]) (Ev.signal "A" "B" "A" "d")).2
        (Msg.signal "B" "A" "d") c ↔
        (sigOk (run [Ev.register "A" "u" (some "a"), Ev.register "B" "v" (some "a")]) "A" "B" = true ∧
         (run [Ev.register "A" "u" (some "a"), Ev.register "B" "v" (some "a")]).connected "B" = true ∧
         c = "B")) ∧
    (sigOk (run [Ev.register "A" "u" (some "a"), Ev.register "B" "v" (some "a")]) "A" "B" = false →
      (step (run [Ev.register "A" "u" (some "a"), Ev.register "B" "v" (some "a")]) (Ev.signal "A" "B" "A" "d")).2 = []) :=
  claim_C1_amended (run [Ev.register "A" "u" (some "a"), Ev.register "B" "v" (some "a")])
    "A" "B" "A" "d" (by decide)

/-! Membership rewriting lemmas for registry updates. -/

theorem isMember_set_room (rooms : Rooms) (r : String) (newMap : RoomPeers) (c : String) :
    isMember (mapSet rooms r newMap) r c = (mapGet newMap c).isSome := by
  simp [isMember, mapGet_set_self]

theorem isMember_set_other (rooms : Rooms) (r0 r : String) (newMap : RoomPeers) (c : String)
    (h : r0 ≠ r) : isMember (mapSet rooms r newMap) r0 c = isMember rooms r0 c := by
  simp [isMember, mapGet_set_ne _ _ _ _ h]

theorem isMember_del_room (rooms : Rooms) (r c : String) :
    isMember (mapDel rooms r) r c = false := by
  simp [isMember, mapGet_del_self, mapGet]

theorem isMember_del_other (rooms : Rooms) (r0 r c : String)
    (h : r0 ≠ r) : isMember (mapDel rooms r) r0 c = isMember rooms r0 c := by
  simp [isMember, mapGet_del_ne _ _ _ h]

/-- Counterexample to claim C5: after a second register naming a different
roomId, the connection appears in both rooms' member maps. -/
theorem claim_C5_counterexample :
    isMember (run [Ev.register "A" "u" (some "a"), Ev.register "A" "u" (some "b")]).rooms "a" "A" = true ∧
    isMember (run [Ev.register "A" "u" (some "a"), Ev.register "A" "u" (some "b")]).rooms "b" "A" = true ∧
    ("a" : String) ≠ "b" := by
  refine ⟨by decide, by decide, by decide⟩

/-- Per-event admissibility for the amended C5: a register by a connection that
already has a recorded current room must resolve to that same room. -/
def evOk (st : SState) : Ev → Bool
  | Ev.register c _ rid =>
    (st.currentRoom c == none) || (st.currentRoom c == some (resolveRoom rid))
  | _ => true

/-- An event sequence is cross-re-registration free when every register event,
evaluated at the state where it happens, satisfies `evOk`. -/
def noCrossRereg : SState → List Ev → Bool
  | _, [] => true
  | st, ev :: rest => evOk st ev && noCrossRereg (step st ev).1 rest

/-- Single-room invariant bundle used to prove the amended C5. -/
structure I5Inv (st : SState) : Prop where
  mem_cr : ∀ c r, isMember st.rooms r c = true → st.currentRoom c = some r
  mem_conn : ∀ c r, isMember st.rooms r c = true → st.connected c = true
  cr_ne2 : ∀ c r, st.currentRoom c = some r → r ≠ ""

theorem i5_init : I5Inv initState := by
  constructor
  · intro c r h
    simp [initState, isMember, mapGet] at h
  · intro c r h
    simp [initState]
  · intro c r h
    simp [initState] at h

theorem i5_register (st : SState) (cid u : String) (rid : Option String)
    (hc : st.connected cid = true)
    (hnc : st.currentRoom cid = none ∨ st.currentRoom cid = some (resolveRoom rid))
    (h : I5Inv st) : I5Inv (registerHandler st cid u rid).1 := by
  unfold registerHandler
  set room := resolveRoom rid with hroom
  set newMap := mapSet ((mapGet st.rooms room).getD []) cid ⟨u, false⟩ with hnm
  constructor
  · intro c r0 hm
    by_cases hr0 : r0 = room
    · subst hr0
      by_cases hcc : c = cid
      · simp [hcc]
      · rw [isMember_set_room] at hm
        rw [mapGet_set_ne _ _ _ _ hcc] at hm
        have hmem : isMember st.rooms room c = true := hm
        simp only [if_neg hcc]
        exact h.mem_cr c room hmem
    · rw [isMember_set_other _ _ _ _ _ hr0] at hm
      have hcr0 := h.mem_cr c r0 hm
      by_cases hcc : c = cid
      · rw [hcc] at hcr0
        rcases hnc with hnc | hnc
        · rw [hnc] at hcr0
          cases hcr0
        · rw [hnc] at hcr0
          exact absurd (Option.some.inj hcr0).symm hr0
      · simp only [if_neg hcc]
        exact hcr0
  · intro c r0 hm
    by_cases hcc : c = cid
    · rw [hcc]
      exact hc
    · by_cases hr0 : r0 = room
      · subst hr0
        rw [isMember_set_room] at hm
        rw [mapGet_set_ne _ _ _ _ hcc] at hm
        exact h.mem_conn c room hm
      · rw [isMember_set_other _ _ _ _ _ hr0] at hm
        exact h.mem_conn c r0 hm
  · intro c r0 hcr0
    by_cases hcc : c = cid
    · simp only [if_pos hcc] at hcr0
      cases hcr0
      exact resolveRoom_ne_empty rid
    · simp only [if_neg hcc] at hcr0
      exact h.cr_ne2 c r0 hcr0

theorem i5_toggle (st : SState) (cid : String) (b : Bool)
    (hc : st.connected cid = true)
    (h : I5Inv st) : I5Inv (toggleHandler st cid b).1 := by
  unfold toggleHandler
  rcases hcr : st.currentRoom cid with _ | r
  · exact h
  · by_cases hr : r = ""
    · simp only [if_pos hr]
      exact h
    · simp only [if_neg hr]
      rcases hp : mapGet ((mapGet st.rooms r).getD []) cid with _ | p
      · exact h
      · simp only
        constructor
        · intro c r0 hm
          by_cases hr0 : r0 = r
          · subst hr0
            rw [isMember_set_room] at hm
            by_cases hcc : c = cid
            · subst hcc
              exact hcr
            · rw [mapGet_set_ne _ _ _ _ hcc] at hm
              exact h.mem_cr c r0 hm
          · rw [isMember_set_other _ _ _ _ _ hr0] at hm
            exact h.mem_cr c r0 hm
        · intro c r0 hm
          by_cases hcc : c = cid
          · subst hcc
            exact hc
          · by_cases hr0 : r0 = r
            · subst hr0
              rw [isMember_set_room] at hm
              rw [mapGet_set_ne _ _ _ _ hcc] at hm
              exact h.mem_conn c r0 hm
            · rw [isMember_set_other _ _ _ _ _ hr0] at hm
              exact h.mem_conn c r0 hm
        · exact h.cr_ne2

theorem i5_disconnect (st : SState) (cid : String)
    (h : I5Inv st) : I5Inv (disconnectHandler st cid).1 := by
  unfold disconnectHandler
  rcases hcr : st.currentRoom cid with _ | r
  · constructor
    · exact h.mem_cr
    · intro c r0 hm
      have hne : c ≠ cid := by
        intro hcc
        subst hcc
        rw [h.mem_cr c r0 hm] at hcr
        cases hcr
      simp only [beq_eq_false_iff_ne.mpr hne, Bool.not_false, Bool.true_and]
      exact h.mem_conn c r0 hm
    · exact h.cr_ne2
  · by_cases hr : r = ""
    · exact absurd hr (h.cr_ne2 cid r hcr)
    · simp only [if_neg hr]
      rcases hm : mapGet st.rooms r with _ | m
      · constructor
        · exact h.mem_cr
        · intro c r0 hmem
          have hne : c ≠ cid := by
            intro hcc
            rw [hcc] at hmem
            have h1 := h.mem_cr cid r0 hmem
            rw [hcr] at h1
            have h2 : r = r0 := Option.some.inj h1
            rw [← h2] at hmem
            have h3 := isMember_room_present st.rooms r cid hmem
            rw [hm] at h3
            simp at h3
          simp only [beq_eq_false_iff_ne.mpr hne, Bool.not_false, Bool.true_and]
          exact h.mem_conn c r0 hmem
        · exact h.cr_ne2
      · simp only
        have mem_back : ∀ c r0, c ≠ cid →
            isMember (if mapDel m cid = [] then mapDel st.rooms r
              else mapSet st.rooms r (mapDel m cid)) r0 c = true →
            isMember st.rooms r0 c = true := by
          intro c r0 hne hmem
          by_cases hdel : mapDel m cid = []
          · rw [if_pos hdel] at hmem
            by_cases hr0 : r0 = r
            · subst hr0
              rw [isMember_del_room] at hmem
              cases hmem
            · rw [isMember_del_other _ _ _ _ hr0] at hmem
              exact hmem
          · rw [if_neg hdel] at hmem
            by_cases hr0 : r0 = r
            · subst hr0
              rw [isMember_set_room] at hmem
              rw [mapGet_del_ne _ _ _ hne] at hmem
              simp only [isMember, hm, Option.getD_some]
              exact hmem
            · rw [isMember_set_other _ _ _ _ _ hr0] at hmem
              exact hmem
        have cid_out : ∀ r0,
            isMember (if mapDel m cid = [] then mapDel st.rooms r
              else mapSet st.rooms r (mapDel m cid)) r0 cid = true → False := by
          intro r0 hmem
          by_cases hr0 : r0 = r
          · subst hr0
            by_cases hdel : mapDel m cid = []
            · rw [if_pos hdel, isMember_del_room] at hmem
              cases hmem
            · rw [if_neg hdel, isMember_set_room, mapGet_del_self] at hmem
              cases hmem
          · have hmem2 : isMember st.rooms r0 cid = true := by
              by_cases hdel : mapDel m cid = []
              · rw [if_pos hdel, isMember_del_other _ _ _ _ hr0] at hmem
                exact hmem
              · rw [if_neg hdel, isMember_set_other _ _ _ _ _ hr0] at hmem
                exact hmem
            have := h.mem_cr cid r0 hmem2
            rw [hcr] at this
            cases this
            exact hr0 rfl
        constructor
        · intro c r0 hmem
          by_cases hcc : c = cid
          · subst hcc
            exact absurd hmem (fun hmem2 => cid_out r0 hmem2)
          · exact h.mem_cr c r0 (mem_back c r0 hcc hmem)
        · intro c r0 hmem
          by_cases hcc : c = cid
          · subst hcc
            exact absurd hmem (fun hmem2 => cid_out r0 hmem2)
          · simp only [beq_eq_false_iff_ne.mpr hcc, Bool.not_false, Bool.true_and]
            exact h.mem_conn c r0 (mem_back c r0 hcc hmem)
        · exact h.cr_ne2

theorem i5_step (st : SState) (ev : Ev) (h : I5Inv st) (hok : evOk st ev = true) :
    I5Inv (step st ev).1 := by
  cases ev with
  | register cid u rid =>
    by_cases hc : st.connected cid = true
    · rw [step_register_connected _ _ _ _ hc]
      have hnc : st.currentRoom cid = none ∨ st.currentRoom cid = some (resolveRoom rid) := by
        simp only [evOk, Bool.or_eq_true, beq_iff_eq] at hok
        exact hok
      exact i5_register st cid u rid hc hnc h
    · simp only [Bool.not_eq_true] at hc
      simp only [step, hc]
      exact h
  | signal cid tid frm d =>
    by_cases hc : st.connected cid = true
    · rw [step_signal_connected _ _ _ _ _ hc, signalHandler_fst]
      exact h
    · simp only [Bool.not_eq_true] at hc
      simp only [step, hc]
      exact h
  | toggleVideo cid b =>
    by_cases hc : st.connected cid = true
    · rw [step_toggle_connected _ _ _ hc]
      exact i5_toggle st cid b hc h
    · simp only [Bool.not_eq_true] at hc
      simp only [step, hc]
      exact h
  | disconnect cid =>
    by_cases hc : st.connected cid = true
    · rw [step_disconnect_connected _ _ hc]
      exact i5_disconnect st cid h
    · simp only [Bool.not_eq_true] at hc
      simp only [step, hc]
      exact h

theorem i5_runFrom (evs : List Ev) : ∀ st, I5Inv st → noCrossRereg st evs = true →
    I5Inv (runFrom st evs) := by
  induction evs with
  | nil =>
    intro st h _
    exact h
  | cons ev rest ih =>
    intro st h hok
    simp only [noCrossRereg, Bool.and_eq_true] at hok
    exact ih (step st ev).1 (i5_step st ev h hok.1) hok.2

/-- Claim C5 as amended: at every state reachable by an event sequence in which
no connection re-registers into a different room (each register by an
already-registered connection resolves to its recorded current room), every
connectionId appears in at most one room's member map. -/
theorem claim_C5_amended (evs : List Ev) (c r1 r2 : String)
    (hnc : noCrossRereg initState evs = true)
    (h1 : isMember (run evs).rooms r1 c = true)
    (h2 : isMember (run evs).rooms r2 c = true) : r1 = r2 := by
  have h := i5_runFrom evs initState i5_init hnc
  have e1 := h.mem_cr c r1 h1
  have e2 := h.mem_cr c r2 h2
  rw [e1] at e2
  cases e2
  rfl

/-- Witness for the amended C5 at a concrete event sequence with a same-room
re-registration. -/
theorem claim_C5_amended_witness : ("a" : String) = "a" :=
  claim_C5_amended
    [Ev.register "A" "u" (some "a"), Ev.register "B" "v" (some "a"),
     Ev.register "A" "w" (some "a")]
    "A" "a" "a" (by decide) (by decide) (by decide)

/-- Claim C3: register resolves the target room (non-empty roomId, else the
literal default), creates the room if absent, inserts or overwrites the entry
for the caller with video disabled, and the newUserConnected notification
carrying the id and username reaches exactly the other connections currently in
that room, never the registering connection. -/
theorem claim_C3 (evs : List Ev) (cid u : String) (rid : Option String)
    (hc : (run evs).connected cid = true) :
    ((rid = none ∨ rid = some "") → resolveRoom rid = "default") ∧
    (∀ r, rid = some r → r ≠ "" → resolveRoom rid = r) ∧
    (mapGet (step (run evs) (Ev.register cid u rid)).1.rooms (resolveRoom rid)).isSome = true ∧
    mapGet ((mapGet (step (run evs) (Ev.register cid u rid)).1.rooms (resolveRoom rid)).getD []) cid = some ⟨u, false⟩ ∧
    (∀ c, DeliveredTo (step (run evs) (Ev.register cid u rid)).1
        (step (run evs) (Ev.register cid u rid)).2 (Msg.newUserConnected cid u) c ↔
      ((step (run evs) (Ev.register cid u rid)).1.connected c = true ∧
       isMember (step (run evs) (Ev.register cid u rid)).1.rooms (resolveRoom rid) c = true ∧
       c ≠ cid)) := by
  have hinv := rinv_run evs
  rw [step_register_connected _ _ _ _ hc]
  refine ⟨?_, ?_, ?_, ?_, ?_⟩
  · rintro (h | h) <;> simp [h, resolveRoom]
  · intro r h hr
    simp [h, resolveRoom, hr]
  · unfold registerHandler
    simp only [mapGet_set_self, Option.isSome_some]
  · unfold registerHandler
    simp only [mapGet_set_self, Option.getD_some, mapGet_set_self]
  · intro c
    unfold registerHandler
    simp only
    rw [deliveredTo_pair]
    constructor
    · rintro (⟨hmsg, _⟩ | ⟨hmsg, hdel⟩)
      · cases hmsg
      · simp only [delivers, Bool.and_eq_true, Bool.or_eq_true, beq_iff_eq,
          Bool.not_eq_true', beq_eq_false_iff_ne] at hdel
        obtain ⟨hcon, hjoin, hne⟩ := hdel
        refine ⟨hcon, ?_, hne⟩
        rcases hjoin with hjoin | hjoin
        · exact absurd hjoin.2 hne
        · have hmem : isMember (run evs).rooms (resolveRoom rid) c = true := by
            rw [← hinv.join_mem c hcon (resolveRoom rid)]
            exact hjoin
          rw [isMember_set_room, mapGet_set_ne _ _ _ _ hne]
          exact hmem
    · rintro ⟨hcon, hmem, hne⟩
      right
      refine ⟨rfl, ?_⟩
      rw [isMember_set_room, mapGet_set_ne _ _ _ _ hne] at hmem
      have hjoin : (run evs).joined (resolveRoom rid) c = true := by
        rw [hinv.join_mem c hcon (resolveRoom rid)]
        exact hmem
      simp [delivers, hcon, hjoin, hne]

/-- Witness for C3 at a concrete reachable state with one other room member. -/
theorem claim_C3_witness :
    ((some "a" = none ∨ (some "a" : Option String) = some "") → resolveRoom (some "a") = "default") ∧
    (∀ r, some "a" = some r → r ≠ "" → resolveRoom (some "a") = r) ∧
    (mapGet (step (run [Ev.register "B" "v" (some "a")]) (Ev.register "A" "u" (some "a"))).1.rooms (resolveRoom (some "a"))).isSome = true ∧
    mapGet ((mapGet (step (run [Ev.register "B" "v" (some "a")]) (Ev.register "A" "u" (some "a"))).1.rooms (resolveRoom (some "a"))).getD []) "A" = some ⟨"u", false⟩ ∧
    (∀ c, DeliveredTo (step (run [Ev.register "B" "v" (some "a")]) (Ev.register "A" "u" (some "a"))).1
        (step (run [Ev.register "B" "v" (some "a")]) (Ev.register "A" "u" (some "a"))).2 (Msg.newUserConnected "A" "u") c ↔
      ((step (run [Ev.register "B" "v" (some "a")]) (Ev.register "A" "u" (some "a"))).1.connected c = true ∧
       isMember (step (run [Ev.register "B" "v" (some "a")]) (Ev.register "A" "u" (some "a"))).1.rooms (resolveRoom (some "a")) c = true ∧
       c ≠ "A")) :=
  claim_C3 [Ev.register "B" "v" (some "a")] "A" "u" (some "a") (by decide)

/-- Claim C7: toggle-video with a recorded current room and live membership
replaces the caller's isVideoEnabled in place (visible to later reads of the
registry) and delivers the user-toggled-video notification to exactly the other
connections currently in the room; when the precondition fails, the state is
returned untouched and nothing is emitted. -/
theorem claim_C7 (evs : List Ev) (cid : String) (b : Bool)
    (hc : (run evs).connected cid = true) :
    ((run evs).currentRoom cid = none → step (run evs) (Ev.toggleVideo cid b) = ((run evs), [])) ∧
    (∀ r, (run evs).currentRoom cid = some r → isMember (run evs).rooms r cid = false →
      step (run evs) (Ev.toggleVideo cid b) = ((run evs), [])) ∧
    (∀ r p, (run evs).currentRoom cid = some r →
      mapGet ((mapGet (run evs).rooms r).getD []) cid = some p →
      mapGet ((mapGet (step (run evs) (Ev.toggleVideo cid b)).1.rooms r).getD []) cid = some ⟨p.username, b⟩ ∧
      (∀ c, DeliveredTo (step (run evs) (Ev.toggleVideo cid b)).1
          (step (run evs) (Ev.toggleVideo cid b)).2 (Msg.userToggledVideo cid b) c ↔
        ((step (run evs) (Ev.toggleVideo cid b)).1.connected c = true ∧
         isMember (step (run evs) (Ev.toggleVideo cid b)).1.rooms r c = true ∧
         c ≠ cid))) := by
  have hinv := rinv_run evs
  rw [step_toggle_connected _ _ _ hc]
  refine ⟨?_, ?_, ?_⟩
  · intro h
    unfold toggleHandler
    rw [h]
  · intro r hcr hmem
    unfold toggleHandler
    rw [hcr]
    by_cases hr : r = ""
    · simp [hr]
    · have hnone : mapGet ((mapGet (run evs).rooms r).getD []) cid = none := by
        cases hq : mapGet ((mapGet (run evs).rooms r).getD []) cid with
        | none => rfl
        | some q =>
          exfalso
          simp only [isMember, hq, Option.isSome_some] at hmem
          cases hmem
      simp [hr, hnone]
  · intro r p hcr hp
    have hr : r ≠ "" := hinv.cr_ne cid r hcr
    rw [toggleHandler_hit (run evs) cid b r p hcr hr hp]
    constructor
    · simp only [mapGet_set_self, Option.getD_some, mapGet_set_self]
    · intro c
      rw [deliveredTo_singleton]
      constructor
      · rintro ⟨-, hdel⟩
        simp only [delivers, Bool.and_eq_true, Bool.not_eq_true', beq_eq_false_iff_ne] at hdel
        obtain ⟨hcon, hjoin, hne⟩ := hdel
        refine ⟨hcon, ?_, hne⟩
        have hmem : isMember (run evs).rooms r c = true := by
          rw [← hinv.join_mem c hcon r]
          exact hjoin
        simp only
        rw [isMember_set_room, mapGet_set_ne _ _ _ _ hne]
        exact hmem
      · rintro ⟨hcon, hmem, hne⟩
        refine ⟨rfl, ?_⟩
        simp only at hmem hcon
        rw [isMember_set_room, mapGet_set_ne _ _ _ _ hne] at hmem
        have hjoin : (run evs).joined r c = true := by
          rw [hinv.join_mem c hcon r]
          exact hmem
        simp [delivers, hcon, hjoin, hne]

/-- Witness for C7 at a concrete reachable state with one other room member. -/
theorem claim_C7_witness :
    ((run [Ev.register "A" "u" (some "a"), Ev.register "B" "v" (some "a")]).currentRoom "A" = none →
      step (run [Ev.register "A" "u" (some "a"), Ev.register "B" "v" (some "a")]) (Ev.toggleVideo "A" true) =
        ((run [Ev.register "A" "u" (some "a"), Ev.register "B" "v" (some "a")]), [])) ∧
    (∀ r, (run [Ev.register "A" "u" (some "a"), Ev.register "B" "v" (some "a")]).currentRoom "A" = some r →
      isMember (run [Ev.register "A" "u" (some "a"), Ev.register "B" "v" (some "a")]).rooms r "A" = false →
      step (run [Ev.register "A" "u" (some "a"), Ev.register "B" "v" (some "a")]) (Ev.toggleVideo "A" true) =
        ((run [Ev.register "A" "u" (some "a"), Ev.register "B" "v" (some "a")]), [])) ∧
    (∀ r p, (run [Ev.register "A" "u" (some "a"), Ev.register "B" "v" (some "a")]).currentRoom "A" = some r →
      mapGet ((mapGet (run [Ev.register "A" "u" (some "a"), Ev.register "B" "v" (some "a")]).rooms r).getD []) "A" = some p →
      mapGet ((mapGet (step (run [Ev.register "A" "u" (some "a"), Ev.register "B" "v" (some "a")]) (Ev.toggleVideo "A" true)).1.rooms r).getD []) "A" = some ⟨p.username, true⟩ ∧
      (∀ c, DeliveredTo (step (run [Ev.register "A" "u" (some "a"), Ev.register "B" "v" (some "a")]) (Ev.toggleVideo "A" true)).1
          (step (run [Ev.register "A" "u" (some "a"), Ev.register "B" "v" (some "a")]) (Ev.toggleVideo "A" true)).2
          (Msg.userToggledVideo "A" true) c ↔
        ((step (run [Ev.register "A" "u" (some "a"), Ev.register "B" "v" (some "a")]) (Ev.toggleVideo "A" true)).1.connected c = true ∧
         isMember (step (run [Ev.register "A" "u" (some "a"), Ev.register "B" "v" (some "a")]) (Ev.toggleVideo "A" true)).1.rooms r c = true ∧
         c ≠ "A"))) :=
  claim_C7 [Ev.register "A" "u" (some "a"), Ev.register "B" "v" (some "a")] "A" true (by decide)

/-- Claim C6: when a connection with a recorded current room disconnects, if it
was the last member (the room is gone afterwards) no userDisconnected message
reaches anyone; otherwise the userDisconnected message carrying the departed id
reaches exactly the remaining connected members of the room. -/
theorem claim_C6 (evs : List Ev) (cid r : String)
    (hc : (run evs).connected cid = true)
    (hcr : (run evs).currentRoom cid = some r) :
    (mapGet (step (run evs) (Ev.disconnect cid)).1.rooms r = none →
      ∀ c i, ¬ DeliveredTo (step (run evs) (Ev.disconnect cid)).1
        (step (run evs) (Ev.disconnect cid)).2 (Msg.userDisconnected i) c) ∧
    ((mapGet (step (run evs) (Ev.disconnect cid)).1.rooms r).isSome = true →
      ∀ c, DeliveredTo (step (run evs) (Ev.disconnect cid)).1
          (step (run evs) (Ev.disconnect cid)).2 (Msg.userDisconnected cid) c ↔
        ((step (run evs) (Ev.disconnect cid)).1.connected c = true ∧
         isMember (step (run evs) (Ev.disconnect cid)).1.rooms r c = true ∧
         c ≠ cid)) := by
  have hinv := rinv_run evs
  have hr : r ≠ "" := hinv.cr_ne cid r hcr
  have hjm : (run evs).joined r cid = true := hinv.cr_mem cid r hc hcr
  have hmem : isMember (run evs).rooms r cid = true := by
    rw [← hinv.join_mem cid hc r]
    exact hjm
  have hroom := isMember_room_present _ _ _ hmem
  rcases Option.isSome_iff_exists.mp hroom with ⟨m, hm⟩
  rw [step_disconnect_connected _ _ hc]
  rw [disconnectHandler_hit (run evs) cid r m hcr hr hm]
  by_cases hdel : mapDel m cid = []
  · constructor
    · intro _ c i hdeliv
      rw [deliveredTo_singleton] at hdeliv
      obtain ⟨-, hdeliv⟩ := hdeliv
      simp only [delivers, Bool.and_eq_true, Bool.not_eq_true', beq_eq_false_iff_ne] at hdeliv
      obtain ⟨hcon, hjoin, hne⟩ := hdeliv
      have hcon3 : (run evs).connected c = true := hcon.2
      have hne3 : c ≠ cid := hcon.1
      have hjoin2 : (run evs).joined r c = true := hjoin.2
      have hmem2 : isMember (run evs).rooms r c = true := by
        rw [← hinv.join_mem c hcon3 r]
        exact hjoin2
      have hkeys := mapDel_eq_nil_keys m cid hdel
      have hnone : mapGet m c = none := mapGet_none_of_keys m cid c hkeys hne3
      rw [isMember, hm, Option.getD_some, hnone] at hmem2
      cases hmem2
    · intro habs
      exfalso
      simp only [if_pos hdel, mapGet_del_self] at habs
      cases habs
  · constructor
    · intro habs
      simp only [if_neg hdel, mapGet_set_self] at habs
      cases habs
    · intro _ c
      rw [deliveredTo_singleton]
      constructor
      · rintro ⟨-, hdeliv⟩
        simp only [delivers, Bool.and_eq_true, Bool.not_eq_true', beq_eq_false_iff_ne] at hdeliv
        obtain ⟨hcon, hjoin, hne⟩ := hdeliv
        have hcon2 : (run evs).connected c = true := hcon.2
        have hne3 : c ≠ cid := hcon.1
        have hjoin2 : (run evs).joined r c = true := hjoin.2
        have hmem2 : isMember (run evs).rooms r c = true := by
          rw [← hinv.join_mem c hcon2 r]
          exact hjoin2
        refine ⟨?_, ?_, hne⟩
        · simp [hne3, hcon2]
        · simp only [if_neg hdel]
          rw [isMember_set_room, mapGet_del_ne _ _ _ hne3]
          rw [isMember, hm, Option.getD_some] at hmem2
          exact hmem2
      · rintro ⟨hcon, hmem2, hne⟩
        refine ⟨rfl, ?_⟩
        simp only [Bool.and_eq_true, Bool.not_eq_true', beq_eq_false_iff_ne] at hcon
        obtain ⟨hne2, hcon2⟩ := hcon
        simp only [if_neg hdel] at hmem2
        rw [isMember_set_room, mapGet_del_ne _ _ _ hne2] at hmem2
        have hmem3 : isMember (run evs).rooms r c = true := by
          rw [isMember, hm, Option.getD_some]
          exact hmem2
        have hjoin : (run evs).joined r c = true := by
          rw [hinv.join_mem c hcon2 r]
          exact hmem3
        simp [delivers, hne2, hcon2, hjoin, hne]

/-- Witness for C6 at a concrete reachable state where another member remains. -/
theorem claim_C6_witness :
    (mapGet (step (run [Ev.register "A" "u" (some "a"), Ev.register "B" "v" (some "a")]) (Ev.disconnect "A")).1.rooms "a" = none →
      ∀ c i, ¬ DeliveredTo (step (run [Ev.register "A" "u" (some "a"), Ev.register "B" "v" (some "a")]) (Ev.disconnect "A")).1
        (step (run [Ev.register "A" "u" (some "a"), Ev.register "B" "v" (some "a")]) (Ev.disconnect "A")).2 (Msg.userDisconnected i) c) ∧
    ((mapGet (step (run [Ev.register "A" "u" (some "a"), Ev.register "B" "v" (some "a")]) (Ev.disconnect "A")).1.rooms "a").isSome = true →
      ∀ c, DeliveredTo (step (run [Ev.register "A" "u" (some "a"), Ev.register "B" "v" (some "a")]) (Ev.disconnect "A")).1
          (step (run [Ev.register "A" "u" (some "a"), Ev.register "B" "v" (some "a")]) (Ev.disconnect "A")).2 (Msg.userDisconnected "A") c ↔
        ((step (run [Ev.register "A" "u" (some "a"), Ev.register "B" "v" (some "a")]) (Ev.disconnect "A")).1.connected c = true ∧
         isMember (step (run [Ev.register "A" "u" (some "a"), Ev.register "B" "v" (some "a")]) (Ev.disconnect "A")).1.rooms "a" c = true ∧
         c ≠ "A")) :=
  claim_C6 [Ev.register "A" "u" (some "a"), Ev.register "B" "v" (some "a")] "A" "a" (by decide) (by decide)

/-! Definitions for claim C9: same-room register and disconnect sequences and
their member counting. -/

/-- Originating connection of an event. -/
def evCid : Ev → String
  | Ev.register c _ _ => c
  | Ev.signal c _ _ _ => c
  | Ev.toggleVideo c _ => c
  | Ev.disconnect c => c

/-- Transport validity: every event in the sequence originates from a socket
still connected when the event is processed. -/
def validFrom : SState → List Ev → Bool
  | _, [] => true
  | st, ev :: rest => st.connected (evCid ev) && validFrom (step st ev).1 rest

/-- The sequence consists of register and disconnect events only. -/
def onlyRegDis : List Ev → Bool
  | [] => true
  | Ev.register _ _ _ :: rest => onlyRegDis rest
  | Ev.disconnect _ :: rest => onlyRegDis rest
  | _ :: _ => false

/-- All register events of the sequence resolve to the room R. -/
def regsTarget (R : String) : List Ev → Bool
  | [] => true
  | Ev.register _ _ rid :: rest => (resolveRoom rid == R) && regsTarget R rest
  | _ :: rest => regsTarget R rest

/-- Accumulate, over the sequence, the distinct connectionIds that registered
and, among those, the ones that subsequently disconnected. -/
def regStatsAux : List Ev → List String → List String → List String × List String
  | [], regs, deads => (regs, deads)
  | Ev.register c _ _ :: rest, regs, deads =>
    regStatsAux rest (if c ∈ regs then regs else regs ++ [c]) deads
  | Ev.disconnect c :: rest, regs, deads =>
    regStatsAux rest regs (if c ∈ regs ∧ ¬ c ∈ deads then deads ++ [c] else deads)
  | _ :: rest, regs, deads => regStatsAux rest regs deads

/-- Member count of room R, zero when the room is absent from the registry. -/
def roomCount (st : SState) (R : String) : Nat := ((mapGet st.rooms R).getD []).length

theorem filter_ne_length (l : List String) (d : String) (hnd : l.Nodup) (hd : d ∈ l) :
    (l.filter (fun x => decide (x ≠ d))).length = l.length - 1 := by
  induction l with
  | nil => cases hd
  | cons a rest ih =>
    obtain ⟨hanin, hndr⟩ := List.nodup_cons.mp hnd
    rcases List.mem_cons.mp hd with hda | hdr
    · have hall : ∀ x ∈ rest, (fun x => decide (x ≠ d)) x = true := by
        intro x hx
        simp only [decide_eq_true_iff]
        intro he
        rw [he, hda] at hx
        exact hanin hx
      have h1 : (decide (a ≠ d)) = false := by simp [hda]
      simp only [List.filter_cons, h1, Bool.false_eq_true, if_neg]
      rw [List.filter_eq_self.mpr hall]
      simp
    · have hne : a ≠ d := by
        rintro rfl
        exact hanin hdr
      have h1 : (decide (a ≠ d)) = true := by simp [hne]
      simp only [List.filter_cons, h1, if_pos]
      have hpos : 0 < rest.length := List.length_pos_of_mem hdr
      have := ih hndr hdr
      simp only [List.length_cons]
      omega

theorem filter_not_mem_length (regs deads : List String) (hnr : regs.Nodup)
    (hnd : deads.Nodup) (hsub : ∀ c ∈ deads, c ∈ regs) :
    (regs.filter (fun x => decide (¬ x ∈ deads))).length = regs.length - deads.length := by
  induction deads generalizing regs with
  | nil => simp
  | cons d ds ih =>
    obtain ⟨hdds, hndds⟩ := List.nodup_cons.mp hnd
    have hdreg : d ∈ regs := hsub d (List.mem_cons_self _ _)
    have heq : regs.filter (fun x => decide (¬ x ∈ (d :: ds))) =
        (regs.filter (fun x => decide (x ≠ d))).filter (fun x => decide (¬ x ∈ ds)) := by
      rw [List.filter_filter]
      apply List.filter_congr
      intro x hx
      by_cases h1 : x = d <;> by_cases h2 : x ∈ ds <;> simp [h1, h2]
    rw [heq]
    have hsub2 : ∀ c ∈ ds, c ∈ regs.filter (fun x => decide (x ≠ d)) := by
      intro c hcds
      rw [List.mem_filter]
      refine ⟨hsub c (List.mem_cons_of_mem _ hcds), ?_⟩
      simp only [decide_eq_true_iff]
      rintro rfl
      exact hdds hcds
    have hnr2 : (regs.filter (fun x => decide (x ≠ d))).Nodup := hnr.filter _
    rw [ih _ hnr2 hndds hsub2]
    rw [filter_ne_length regs d hnr hdreg]
    have hpos : 0 < regs.length := List.length_pos_of_mem hdreg
    simp only [List.length_cons]
    omega

/-- Induction invariant for claim C9, tying the member map of room R to the
accumulated registration statistics. -/
structure C9Inv (st : SState) (R : String) (regs deads : List String) : Prop where
  keys_eq : keysOf ((mapGet st.rooms R).getD []) = regs.filter (fun x => decide (¬ x ∈ deads))
  regs_nd : regs.Nodup
  deads_nd : deads.Nodup
  deads_sub : ∀ c ∈ deads, c ∈ regs
  cr_eq : ∀ c, st.currentRoom c = (if c ∈ regs then some R else none)
  dead_conn : ∀ c ∈ deads, st.connected c = false
  rne : regs ≠ [] → R ≠ ""

theorem c9_init (R : String) : C9Inv initState R [] [] := by
  constructor
  · simp [initState, mapGet, keysOf]
  · exact List.nodup_nil
  · exact List.nodup_nil
  · intro c hc
    cases hc
  · intro c
    simp [initState]
  · intro c hc
    cases hc
  · intro hne
    exact absurd rfl hne

theorem c9_step_reg (st : SState) (R : String) (regs deads : List String)
    (c u : String) (rid : Option String)
    (hc : st.connected c = true) (htgt : resolveRoom rid = R)
    (h : C9Inv st R regs deads) :
    C9Inv (registerHandler st c u rid).1 R (if c ∈ regs then regs else regs ++ [c]) deads := by
  have hcd : ¬ c ∈ deads := by
    intro hmem
    rw [h.dead_conn c hmem] at hc
    cases hc
  unfold registerHandler
  rw [htgt]
  constructor
  · have hget : mapGet (mapSet st.rooms R (mapSet ((mapGet st.rooms R).getD []) c ⟨u, false⟩)) R
        = some (mapSet ((mapGet st.rooms R).getD []) c ⟨u, false⟩) := mapGet_set_self _ _ _
    simp only [hget, Option.getD_some]
    rw [keysOf_set]
    by_cases hcreg : c ∈ regs
    · have hcmem : c ∈ keysOf ((mapGet st.rooms R).getD []) := by
        rw [h.keys_eq, List.mem_filter]
        exact ⟨hcreg, by simp [hcd]⟩
      rw [if_pos hcmem, if_pos hcreg, h.keys_eq]
    · have hcnmem : ¬ c ∈ keysOf ((mapGet st.rooms R).getD []) := by
        rw [h.keys_eq, List.mem_filter]
        rintro ⟨hmem, -⟩
        exact hcreg hmem
      rw [if_neg hcnmem, if_neg hcreg, h.keys_eq, List.filter_append]
      simp [hcd]
  · by_cases hcreg : c ∈ regs
    · rw [if_pos hcreg]
      exact h.regs_nd
    · rw [if_neg hcreg]
      simp [List.nodup_append, h.regs_nd, hcreg]
  · exact h.deads_nd
  · intro x hx
    have hxr := h.deads_sub x hx
    by_cases hcreg : c ∈ regs
    · rw [if_pos hcreg]
      exact hxr
    · rw [if_neg hcreg]
      exact List.mem_append_left _ hxr
  · intro x
    by_cases hxc : x = c
    · have hxin : x ∈ (if c ∈ regs then regs else regs ++ [c]) := by
        subst hxc
        by_cases hcreg : x ∈ regs <;> simp [hcreg]
      simp only [if_pos hxc, if_pos hxin]
    · simp only [if_neg hxc]
      rw [h.cr_eq x]
      have hiff : (x ∈ (if c ∈ regs then regs else regs ++ [c])) ↔ x ∈ regs := by
        by_cases hcreg : c ∈ regs
        · simp [hcreg]
        · simp [hcreg, List.mem_append, hxc]
      by_cases hxr : x ∈ regs
      · rw [if_pos hxr, if_pos (hiff.mpr hxr)]
      · rw [if_neg hxr, if_neg (fun hmem => hxr (hiff.mp hmem))]
  · intro x hx
    exact h.dead_conn x hx
  · intro _
    rw [← htgt]
    exact resolveRoom_ne_empty rid

theorem c9_step_dis (st : SState) (R : String) (regs deads : List String) (c : String)
    (hc : st.connected c = true)
    (h : C9Inv st R regs deads) :
    C9Inv (disconnectHandler st c).1 R regs
      (if c ∈ regs ∧ ¬ c ∈ deads then deads ++ [c] else deads) := by
  have hcd : ¬ c ∈ deads := by
    intro hmem
    rw [h.dead_conn c hmem] at hc
    cases hc
  by_cases hcreg : c ∈ regs
  · rw [if_pos ⟨hcreg, hcd⟩]
    have hcr : st.currentRoom c = some R := by
      rw [h.cr_eq c, if_pos hcreg]
    have hR : R ≠ "" := h.rne (by
      intro he
      rw [he] at hcreg
      cases hcreg)
    have hckey : c ∈ keysOf ((mapGet st.rooms R).getD []) := by
      rw [h.keys_eq, List.mem_filter]
      exact ⟨hcreg, by simp [hcd]⟩
    have hpres : (mapGet st.rooms R).isSome = true := by
      cases hq : mapGet st.rooms R with
      | none =>
        rw [hq] at hckey
        simp [keysOf] at hckey
      | some m => simp
    rcases Option.isSome_iff_exists.mp hpres with ⟨m, hm⟩
    rw [disconnectHandler_hit st c R m hcr hR hm]
    have hmkeys : keysOf m = regs.filter (fun x => decide (¬ x ∈ deads)) := by
      have h2 := h.keys_eq
      rw [hm] at h2
      simpa using h2
    have hdelkeys : keysOf (mapDel m c) =
        regs.filter (fun x => decide (¬ x ∈ (deads ++ [c]))) := by
      rw [keysOf_del, hmkeys, List.filter_filter]
      apply List.filter_congr
      intro x hx
      by_cases h1 : x = c <;> by_cases h2 : x ∈ deads <;> simp [h1, h2]
    constructor
    · by_cases hdel : mapDel m c = []
      · simp only [if_pos hdel]
        rw [mapGet_del_self]
        rw [← hdelkeys, hdel]
        simp [keysOf]
      · simp only [if_neg hdel]
        rw [mapGet_set_self]
        simpa using hdelkeys
    · exact h.regs_nd
    · simp [List.nodup_append, h.deads_nd, hcd]
    · intro x hx
      rcases List.mem_append.mp hx with hx | hx
      · exact h.deads_sub x hx
      · rw [List.mem_singleton.mp hx]
        exact hcreg
    · intro x
      exact h.cr_eq x
    · intro x hx
      rcases List.mem_append.mp hx with hx | hx
      · have hfalse := h.dead_conn x hx
        simp [hfalse]
      · rw [List.mem_singleton.mp hx]
        simp
    · exact h.rne
  · rw [if_neg (fun hand => hcreg hand.1)]
    have hcr : st.currentRoom c = none := by
      rw [h.cr_eq c, if_neg hcreg]
    unfold disconnectHandler
    rw [hcr]
    constructor
    · exact h.keys_eq
    · exact h.regs_nd
    · exact h.deads_nd
    · exact h.deads_sub
    · exact h.cr_eq
    · intro x hx
      have hfalse := h.dead_conn x hx
      simp [hfalse]
    · exact h.rne

theorem c9_runFrom (evs : List Ev) : ∀ (st : SState) (R : String) (regs deads : List String),
    C9Inv st R regs deads → onlyRegDis evs = true → regsTarget R evs = true →
    validFrom st evs = true →
    C9Inv (runFrom st evs) R (regStatsAux evs regs deads).1 (regStatsAux evs regs deads).2 := by
  induction evs with
  | nil =>
    intro st R regs deads h _ _ _
    exact h
  | cons ev rest ih =>
    intro st R regs deads h h1 h2 h3
    cases ev with
    | register c u rid =>
      simp only [onlyRegDis] at h1
      simp only [regsTarget, Bool.and_eq_true, beq_iff_eq] at h2
      simp only [validFrom, evCid, Bool.and_eq_true] at h3
      have hstep := step_register_connected st c u rid h3.1
      simp only [runFrom, regStatsAux, hstep]
      rw [hstep] at h3
      exact ih _ R _ _ (c9_step_reg st R regs deads c u rid h3.1 h2.1 h) h1 h2.2 h3.2
    | disconnect c =>
      simp only [onlyRegDis] at h1
      simp only [regsTarget] at h2
      simp only [validFrom, evCid, Bool.and_eq_true] at h3
      have hstep := step_disconnect_connected st c h3.1
      simp only [runFrom, regStatsAux, hstep]
      rw [hstep] at h3
      exact ih _ R _ _ (c9_step_dis st R regs deads c h3.1 h) h1 h2 h3.2
    | signal c tid frm d =>
      simp [onlyRegDis] at h1
    | toggleVideo c b =>
      simp [onlyRegDis] at h1

/-- Claim C9: over any transport-valid sequence consisting solely of register
and disconnect events whose registers all resolve to room R, the final member
count of R equals the number of distinct connectionIds that registered minus
the number of those that subsequently disconnected. -/
theorem claim_C9 (evs : List Ev) (R : String)
    (h1 : onlyRegDis evs = true) (h2 : regsTarget R evs = true)
    (h3 : validFrom initState evs = true) :
    roomCount (run evs) R =
      (regStatsAux evs [] []).1.length - (regStatsAux evs [] []).2.length := by
  have h := c9_runFrom evs initState R [] [] (c9_init R) h1 h2 h3
  have hkeys := h.keys_eq
  rw [roomCount, run, ← keysOf_length, hkeys]
  exact filter_not_mem_length _ _ h.regs_nd h.deads_nd h.deads_sub

/-- Witness for C9: A and B register in room a, A re-registers, B disconnects;
two distinct ids registered, one of them disconnected, one member remains. -/
theorem claim_C9_witness :
    roomCount (run [Ev.register "A" "u" (some "a"), Ev.register "B" "v" (some "a"),
      Ev.register "A" "w" (some "a"), Ev.disconnect "B"]) "a" =
      (regStatsAux [Ev.register "A" "u" (some "a"), Ev.register "B" "v" (some "a"),
        Ev.register "A" "w" (some "a"), Ev.disconnect "B"] [] []).1.length -
      (regStatsAux [Ev.register "A" "u" (some "a"), Ev.register "B" "v" (some "a"),
        Ev.register "A" "w" (some "a"), Ev.disconnect "B"] [] []).2.length :=
  claim_C9 [Ev.register "A" "u" (some "a"), Ev.register "B" "v" (some "a"),
    Ev.register "A" "w" (some "a"), Ev.disconnect "B"] "a" (by decide) (by decide) (by decide)

end Auvi
